import Mathlib

set_option maxHeartbeats 1000000

set_option allowUnsafeReducibility true in
attribute [semireducible] Rat.add Rat.mul Rat.inv Rat.sub Rat.div Rat.ofScientific

/- Shallow embedding of the HuntOverlay engine (HuntOverlay.py): the
   coordinate transform, raw-data format detection, per-map point cache with
   its derived union category, the stable hidden-identity model, the hover
   hit-test, the per-tick input state machine and the configuration merge.
   Python floats are modelled by exact rationals, polled key state by
   booleans, and persisted JSON by an explicit JSON value type. -/

/-- A single apostrophe character, used to build the fourth map name. -/
def apos : String := (Char.ofNat 39).toString

/-- The fixed ordered 4-element map list (`MAPS` in the source). -/
def MAPS : List String :=
  ["Stillwater Bayou", "DeSalle", "Lawson Delta", "Mammon" ++ apos ++ "s Gulch"]

/-- The fixed ordered 11-category list (`Overlay.type_order`). -/
def typeOrder : List String :=
  ["possible_xp", "spawns", "armories", "towers", "big_towers", "workbenches",
   "wild_targets", "beetles", "easter_eggs", "melee_weapons", "cash_registers"]

/-- `rotate90cw_norm(x, y)`: 90 degree clockwise rotation of 4096-grid map
coordinates followed by normalization by 4095.0 and independent clamping of
each component to the unit interval. -/
def rotate90cw_norm (x y : ℚ) : ℚ × ℚ :=
  let xr : ℚ := y
  let yr : ℚ := 4095 - x
  let u0 := xr / 4095
  let v0 := yr / 4095
  let u1 := if u0 < 0 then 0 else u0
  let u2 := if u1 > 1 then 1 else u1
  let v1 := if v0 < 0 then 0 else v0
  let v2 := if v1 > 1 then 1 else v1
  (u2, v2)

/-- JSON-like values, modelling what `json.load` can return. -/
inductive J where
  | null : J
  | jbool : Bool → J
  | num : ℚ → J
  | str : String → J
  | arr : List J → J
  | obj : List (String × J) → J

/-- Dictionary lookup on an insertion-ordered association list (Python
`dict.get` returning `None` when the key is absent). -/
def jLookup (kvs : List (String × J)) (k : String) : Option J :=
  match kvs.find? (fun kv => kv.1 == k) with
  | some kv => some kv.2
  | none => none

/-- Python `d[k] = v` on an insertion-ordered dict: replace in place when the
key exists, append otherwise. -/
def dictSet (kvs : List (String × J)) (k : String) (v : J) : List (String × J) :=
  if kvs.any (fun kv => kv.1 == k) then
    kvs.map (fun kv => if kv.1 == k then (k, v) else kv)
  else kvs ++ [(k, v)]

/-- Python `base.update(upd)` on insertion-ordered dicts. -/
def dictUpdate (base upd : List (String × J)) : List (String × J) :=
  upd.foldl (fun acc kv => dictSet acc kv.1 kv.2) base

/-- `detect_data_format(game_data)`: classify the raw dataset as
"indexed_r", "named" or "unknown" by inspecting the first entry of a
non-empty list. -/
def detect_data_format (game_data : J) : String :=
  match game_data with
  | J.arr (a :: _) =>
    match a with
    | J.obj kvs =>
      if (jLookup kvs "i").isSome && ((jLookup kvs "r").isSome || (jLookup kvs "a").isSome) then
        "indexed_r"
      else if (jLookup kvs "n").isSome then "named"
      else "unknown"
    | _ => "unknown"
  | _ => "unknown"

/-- A cached normalized point as built by `_build_points_for_map`: normalized
screen fractions `u, v`, the original grid coordinates `x, y`, and the source
category `src` recorded for union members. -/
structure Pt where
  u : ℚ
  v : ℚ
  x : ℚ
  y : ℚ
  src : String
deriving DecidableEq, Repr

/-- The active screen rectangle (a `QRect`: integer pixel coordinates). -/
structure Rect where
  left : ℤ
  top : ℤ
  width : ℤ
  height : ℤ
deriving DecidableEq, Repr

/-- The hover result record built by `_update_hover`
(`{"map", "type", "index", "pt_ref"}`). -/
structure Hover where
  map : String
  tkey : String
  index : ℕ
  pt : Pt
deriving DecidableEq, Repr

/-- Python 3 `int(round(q))`: round half to even. -/
def pyRound (q : ℚ) : ℤ :=
  let n := q.floor
  let frac := q - (n : ℚ)
  if frac < 1/2 then n
  else if (1 : ℚ)/2 < frac then n + 1
  else if n % 2 = 0 then n else n + 1

/-- `_hidden_key(tkey, pt)`: the stable identity string of a POI within a
category; `possible_xp` identities are prefixed with the source category. -/
def hidden_key (tkey : String) (pt : Pt) : String :=
  let xi := pyRound pt.x
  let yi := pyRound pt.y
  if tkey == "possible_xp" then
    pt.src ++ ":" ++ toString xi ++ ":" ++ toString yi
  else toString xi ++ ":" ++ toString yi

/-- The per-category hidden-identity store (`Overlay.hidden_sets`), modelled
as a function from category key to the stored identities. -/
def HiddenSets : Type := String → List String

/-- `hidden_sets.setdefault(tkey, set()).add(hk)`: idempotent insertion into
one category's hidden set. -/
def hideKey (hs : HiddenSets) (tkey hk : String) : HiddenSets :=
  fun c =>
    if c == tkey then (if (hs tkey).contains hk then hs tkey else hk :: hs tkey)
    else hs c

/-- `_is_hidden(tkey, pt)`: membership of the point's identity in that
category's hidden set. -/
def is_hidden (hs : HiddenSets) (tkey : String) (pt : Pt) : Bool :=
  (hs tkey).contains (hidden_key tkey pt)

/-- The fixed hover radius in pixels (`self.hover_radius = 10`). -/
def hoverRadius : ℚ := 10

/-- Squared euclidean distance from the pointer `(mx, my)` to the screen
position of a cached point inside the active rectangle. -/
def ptD2 (r : Rect) (mx my : ℚ) (pt : Pt) : ℚ :=
  let cx : ℚ := (r.left : ℚ) + pt.u * (r.width : ℚ)
  let cy : ℚ := (r.top : ℚ) + pt.v * (r.height : ℚ)
  (mx - cx) * (mx - cx) + (my - cy) * (my - cy)

/-- Squared pointer distance of a hover candidate. -/
def hoverD2 (r : Rect) (mx my : ℚ) (hv : Hover) : ℚ := ptD2 r mx my hv.pt

/-- The inner loop of `_update_hover` over one category's enumerated point
list: skip hidden points, and replace the running best whenever the squared
distance is less than or equal to the current best. -/
def innerFold (mapName tkey : String) (hs : HiddenSets) (r : Rect) (mx my : ℚ) :
    List (ℕ × Pt) → ℚ × Option Hover → ℚ × Option Hover
  | [], acc => acc
  | ip :: rest, acc =>
    if is_hidden hs tkey ip.2 then innerFold mapName tkey hs r mx my rest acc
    else if ptD2 r mx my ip.2 ≤ acc.1 then
      innerFold mapName tkey hs r mx my rest (ptD2 r mx my ip.2, some ⟨mapName, tkey, ip.1, ip.2⟩)
    else innerFold mapName tkey hs r mx my rest acc

/-- The outer loop of `_update_hover`: iterate the category order, skipping
disabled categories, threading the `(best_d2, best)` accumulator. -/
def hitTestFold (mapName : String) (order : List String) (enabled : String → Bool)
    (hs : HiddenSets) (pts : String → List Pt) (r : Rect) (mx my : ℚ)
    (acc : ℚ × Option Hover) : ℚ × Option Hover :=
  order.foldl
    (fun a tkey =>
      if enabled tkey then innerFold mapName tkey hs r mx my (pts tkey).enum a else a)
    acc

/-- The hover hit-test core of `_update_hover` (given an active rectangle):
best squared distance initialized to the hover radius squared, result is the
final best candidate. -/
def hit_test (mapName : String) (enabled : String → Bool) (hs : HiddenSets)
    (pts : String → List Pt) (r : Rect) (mx my : ℚ) : Option Hover :=
  (hitTestFold mapName typeOrder enabled hs pts r mx my
    (hoverRadius * hoverRadius, none)).2

/-- Generic best-tracking fold: replace the accumulator whenever the measure
of the next element is less than or equal to the current best measure. -/
def foldBest {α : Type} (f : α → ℚ) : List α → ℚ × Option α → ℚ × Option α
  | [], acc => acc
  | c :: cs, acc =>
    if f c ≤ acc.1 then foldBest f cs (f c, some c) else foldBest f cs acc

/-- The hover candidates contributed by one enabled category: its enumerated
points with the hidden ones removed. -/
def catCandidates (mapName tkey : String) (hs : HiddenSets) (pts : List Pt) :
    List Hover :=
  (pts.enum.filter (fun ip => !is_hidden hs tkey ip.2)).map
    (fun ip => ⟨mapName, tkey, ip.1, ip.2⟩)

/-- All hover candidates in iteration order: categories in declared order,
disabled categories contributing nothing. -/
def candidates (mapName : String) (order : List String) (enabled : String → Bool)
    (hs : HiddenSets) (pts : String → List Pt) : List Hover :=
  order.foldr
    (fun tkey acc =>
      (if enabled tkey then catCandidates mapName tkey hs (pts tkey) else []) ++ acc)
    []

/-- A raw POI entry as consumed by `_build_points_for_map`: whether it is a
dict, and its `"c"` field modelled as an optional list whose entries either
convert to a float or fail conversion. -/
structure RawItem where
  isDict : Bool
  c : Option (List (Option ℚ))

/-- One iteration of the `build_for_category` loop: skip non-dict items,
items with a missing/short `"c"`, and failed float conversions; otherwise
produce the normalized point, remembering the source category. -/
def parseItem (cat : String) (it : RawItem) : Option Pt :=
  if it.isDict then
    match it.c with
    | some cs =>
      if 2 ≤ cs.length then
        match cs.get? 0, cs.get? 1 with
        | some (some x), some (some y) =>
          some ⟨(rotate90cw_norm x y).1, (rotate90cw_norm x y).2, x, y, cat⟩
        | _, _ => none
      else none
    | none => none
  else none

/-- `build_for_category(cat)` from `_build_points_for_map`. -/
def build_for_category (cat : String) (items : List RawItem) : List Pt :=
  items.filterMap (parseItem cat)

/-- `_build_points_for_map`: per-category point lists for one map. The map
block is `none` when `get_map_block` found nothing; otherwise it yields each
category's raw item list (the `get_category_list` result). `possible_xp` is
the ordered concatenation of towers, big_towers and armories. -/
def build_points_for_map (block : Option (String → List RawItem)) :
    String → List Pt :=
  match block with
  | none => fun _ => []
  | some bl => fun cat =>
    if cat == "possible_xp" then
      build_for_category "towers" (bl "towers")
        ++ build_for_category "big_towers" (bl "big_towers")
        ++ build_for_category "armories" (bl "armories")
    else if typeOrder.contains cat then build_for_category cat (bl cat)
    else []

/-- `default_rect_ratio()` as a JSON object. -/
def default_rect_ratio : J :=
  J.obj [("rx", J.num (790/2560)), ("ry", J.num (210/1440)),
         ("rw", J.num (983/2560)), ("rh", J.num (984/1440))]

/-- The built-in default `profiles` section: every map with the default
rectangle ratio. -/
def defaultProfiles : List (String × J) :=
  MAPS.map (fun m => (m, J.obj [("rect_ratio", default_rect_ratio)]))

/-- The built-in default `settings` section of `_load_config`. -/
def defaultSettings : List (String × J) :=
  [("enable_num_switch", J.jbool true),
   ("selected_map", J.str "Stillwater Bayou"),
   ("visible_overlay", J.jbool false),
   ("master_on", J.jbool true),
   ("global_scale", J.num 1),
   ("types", J.obj []),
   ("hidden", J.obj [])]

/-- The merged configuration held in memory (`self.data`). -/
structure Config where
  profiles : List (String × J)
  settings : List (String × J)

/-- The per-map normalization loop of `_load_config`: ensure the map is
present and carries a dict `rect_ratio`, replacing a malformed one wholesale.
Returns `none` where the Python code would raise (profile value not a dict),
which propagates as a fatal startup error. -/
def normalizeProfile (acc : List (String × J)) (m : String) :
    Option (List (String × J)) :=
  let acc1 :=
    if acc.any (fun kv => kv.1 == m) then acc
    else acc ++ [(m, J.obj [("rect_ratio", default_rect_ratio)])]
  match jLookup acc1 m with
  | some (J.obj mkvs) =>
    match jLookup mkvs "rect_ratio" with
    | some (J.obj _) => some acc1
    | _ => some (dictSet acc1 m (J.obj (dictSet mkvs "rect_ratio" default_rect_ratio)))
  | _ => none

/-- `_load_config`: shallow-merge the persisted payload (`none` when the file
is unreadable or fails to parse) over the defaults at the `profiles` and
`settings` levels, then normalize every map profile. -/
def loadConfig (d : Option J) : Option Config :=
  let merged :=
    match d with
    | some (J.obj kvs) =>
      let p :=
        match jLookup kvs "profiles" with
        | some (J.obj pkvs) => dictUpdate defaultProfiles pkvs
        | _ => defaultProfiles
      let s :=
        match jLookup kvs "settings" with
        | some (J.obj skvs) => dictUpdate defaultSettings skvs
        | _ => defaultSettings
      (p, s)
    | _ => (defaultProfiles, defaultSettings)
  match MAPS.foldlM normalizeProfile merged.1 with
  | none => none
  | some ps => some ⟨ps, merged.2⟩

/-- One iteration of the `__init__` loop populating `self.types`: inject a
default entry for a missing category and fill missing `enabled`/`color`
fields. `dc` is the per-category default fill color (seeded from the style
file). Non-dict persisted values, for which the Python code misbehaves, map
to `none`; `fillFields` is the pair of missing-field ifs of that loop. -/
def fillFields (dc : String → J) (k : String) (kvs : List (String × J)) :
    List (String × J) :=
  let kvs1 :=
    if kvs.any (fun kv => kv.1 == "enabled") then kvs
    else dictSet kvs "enabled" (J.jbool true)
  if kvs1.any (fun kv => kv.1 == "color") then kvs1
  else dictSet kvs1 "color" (dc k)

/-- One iteration of the `__init__` loop populating `self.types`: inject a
default entry for a missing category and fill missing fields. -/
def fillType (dc : String → J) (acc : List (String × J)) (k : String) :
    Option (List (String × J)) :=
  let acc1 :=
    if acc.any (fun kv => kv.1 == k) then acc
    else dictSet acc k (J.obj [("enabled", J.jbool true), ("color", dc k)])
  match jLookup acc1 k with
  | some (J.obj kvs) => some (dictSet acc1 k (J.obj (fillFields dc k kvs)))
  | _ => none

/-- `self.types = st.get("types", {})` followed by the population loop over
`type_order`. -/
def initTypes (dc : String → J) (settings : List (String × J)) :
    Option (List (String × J)) :=
  let types0 : Option (List (String × J)) :=
    match jLookup settings "types" with
    | none => some []
    | some (J.obj t) => some t
    | some _ => none
  match types0 with
  | none => none
  | some t0 => typeOrder.foldlM (fillType dc) t0

/-- `self.hidden = st.get("hidden", {})` (any non-dict replaced by `{}`)
followed by the loop forcing every category to carry a list. -/
def initHidden (settings : List (String × J)) : List (String × J) :=
  let h0 :=
    match jLookup settings "hidden" with
    | some (J.obj hk) => hk
    | _ => []
  typeOrder.foldl
    (fun acc k =>
      match jLookup acc k with
      | some (J.arr _) => acc
      | _ => dictSet acc k (J.arr []))
    h0

/-- A category has a usable TypeSetting entry: present, a dict, with both
`enabled` and `color` fields. -/
def typeEntryOk (ts : List (String × J)) (k : String) : Bool :=
  match jLookup ts k with
  | some (J.obj kvs) => (jLookup kvs "enabled").isSome && (jLookup kvs "color").isSome
  | _ => false

/-- A category has a hidden-list entry. -/
def hiddenEntryOk (hs : List (String × J)) (k : String) : Bool :=
  match jLookup hs k with
  | some (J.arr _) => true
  | _ => false

/-- A map profile is present and carries a dict `rect_ratio` record. -/
def profileHasRect (ps : List (String × J)) (m : String) : Bool :=
  match jLookup ps m with
  | some (J.obj mkvs) =>
    match jLookup mkvs "rect_ratio" with
    | some (J.obj _) => true
    | _ => false
  | _ => false

/-- The clamp applied to `global_scale` on every assignment path
(`__init__` and `_scale_changed`): below 0.10 becomes 0.10, above 5.00
becomes 5.00. -/
def clampedScale (x : ℚ) : ℚ :=
  let g0 := x
  let g1 := if g0 < 1/10 then 1/10 else g0
  let g2 := if g1 > 5 then 5 else g1
  g2

/-- The `__init__` assignment
`self.global_scale = float(st.get("global_scale", 1.00))` with its clamp. -/
def initGlobalScale (persisted : Option ℚ) : ℚ :=
  clampedScale (persisted.getD 1)

/-- A map profile's `rect_ratio` record with numeric fields. -/
structure RectRatio where
  rx : ℚ
  ry : ℚ
  rw : ℚ
  rh : ℚ

/-- Python `int(q)`: truncation toward zero. -/
def pyInt (q : ℚ) : ℤ := if q < 0 then Int.ceil q else Int.floor q

/-- The mutable engine state read and written by `_tick` and its helpers. -/
structure TickState where
  master : Bool
  visible : Bool
  num_sw : Bool
  prof : String
  pbt : Bool
  pH : Bool
  pT : Bool
  pHide : Bool
  hover : Option Hover
  hiddenSets : HiddenSets
  typesEnabled : String → Bool
  global_scale : ℚ
  rect : Option Rect
  profiles : String → Option RectRatio
  screenW : ℚ
  screenH : ℚ
  cache : String → String → List Pt

/-- The externally polled inputs of one tick: the sampled key states and the
pointer position in overlay-local coordinates. -/
structure TickInput where
  bt : Bool
  h : Bool
  tab : Bool
  k1 : Bool
  k2 : Bool
  k3 : Bool
  k4 : Bool
  del : Bool
  ctrl : Bool
  alt : Bool
  shift : Bool
  mx : ℚ
  my : ℚ

/-- `_scale_changed(scale)`: store the clamped value. -/
def scale_changed (st : TickState) (x : ℚ) : TickState :=
  { st with global_scale := clampedScale x }

/-- `_apply_rect`: recompute the pixel rectangle from the selected profile's
ratios and the screen size; a malformed ratio record clears the rectangle. -/
def applyRect (st : TickState) : TickState :=
  match st.profiles st.prof with
  | none => { st with rect := none }
  | some rr =>
    { st with rect := some ⟨pyInt (rr.rx * st.screenW), pyInt (rr.ry * st.screenH),
        max 1 (pyInt (rr.rw * st.screenW)), max 1 (pyInt (rr.rh * st.screenH))⟩ }

/-- `switch(name)`: change the selected map when the name is valid and
different, re-deriving the rectangle. -/
def switch (st : TickState) (name : String) : TickState :=
  if MAPS.contains name && !(name == st.prof) then applyRect { st with prof := name }
  else st

/-- `_hide_hovered`: no-op without a hover result; otherwise insert the
hovered point's identity into the hovered category's hidden set and clear the
hover. -/
def hide_hovered (st : TickState) : TickState :=
  match st.hover with
  | none => st
  | some hv =>
    { st with
      hiddenSets := hideKey st.hiddenSets hv.tkey (hidden_key hv.tkey hv.pt),
      hover := none }

/-- `_update_hover`: none unless master, visible and a rectangle are all
present; otherwise the hit-test over the current map's cache. -/
def update_hover (st : TickState) (mx my : ℚ) : Option Hover :=
  if st.master && st.visible then
    match st.rect with
    | some r => hit_test st.prof st.typesEnabled st.hiddenSets (st.cache st.prof) r mx my
    | none => none
  else none

/-- The chord sampled by `_tick`: Delete, Control, Alt and Shift all held. -/
def chord (i : TickInput) : Bool := i.del && i.ctrl && i.alt && i.shift

/-- The backtick master-toggle block of `_tick` (including the forced
visibility drop), followed by the unconditional `pbt` update. -/
def tickBt (st : TickState) (i : TickInput) : TickState :=
  let s :=
    if i.bt && !st.pbt then
      let m := !st.master
      if !m && st.visible then { st with master := m, visible := false }
      else { st with master := m }
    else st
  { s with pbt := i.bt }

/-- The H-key block of `_tick`: hide the overlay on a rising edge while
visible, then update `pH` unconditionally. -/
def tickH (st : TickState) (i : TickInput) : TickState :=
  let s := if i.h && !st.pH && st.visible then { st with visible := false } else st
  { s with pH := i.h }

/-- The Tab block of `_tick` (reached only while master is on): toggle
visibility on a rising edge, then update `pT`. -/
def tickTab (st : TickState) (i : TickInput) : TickState :=
  let s := if i.tab && !st.pT then { st with visible := !st.visible } else st
  { s with pT := i.tab }

/-- The 1-4 map-switch block of `_tick`: level-triggered while visible and
enabled. -/
def tickMaps (st : TickState) (i : TickInput) : TickState :=
  if st.visible && st.num_sw then
    if i.k1 then switch st "Stillwater Bayou"
    else if i.k2 then switch st "DeSalle"
    else if i.k3 then switch st "Lawson Delta"
    else if i.k4 then switch st ("Mammon" ++ apos ++ "s Gulch")
    else st
  else st

/-- The hover block of `_tick`: recompute the hover only while visible. -/
def tickHover (st : TickState) (i : TickInput) : TickState :=
  if st.visible then { st with hover := update_hover st i.mx i.my } else st

/-- The chord block of `_tick`: call `_hide_hovered` on the rising edge of
the whole chord, then update `pHide`; the boolean reports whether the hide
action fired. -/
def tickChord (st : TickState) (i : TickInput) : TickState × Bool :=
  let hideNow := chord i
  let fired := hideNow && !st.pHide
  let s := if fired then hide_hovered st else st
  ({ s with pHide := hideNow }, fired)

/-- `_tick`: the full per-tick transition. After the backtick and H blocks
the function returns early when master is off; otherwise the Tab, map-switch,
hover and chord blocks run in order. The boolean reports whether the chorded
hide action fired this tick. -/
def tick (st : TickState) (i : TickInput) : TickState × Bool :=
  let s2 := tickH (tickBt st i) i
  if !s2.master then (s2, false)
  else tickChord (tickHover (tickMaps (tickTab s2 i) i) i) i

/-- The master flag as it stands at the early-return check of `_tick`, after
the backtick toggle has been processed. -/
def masterAfter (st : TickState) (i : TickInput) : Bool :=
  if i.bt && !st.pbt then !st.master else st.master

/-- Number of ticks of a run on which the chorded hide action fires. -/
def countFires (st : TickState) : List TickInput → ℕ
  | [] => 0
  | i :: rest =>
    (if (tick st i).2 then 1 else 0) + countFires (tick st i).1 rest

/-- The startup slice of `Overlay.__init__` relevant to format detection:
detect the data format and abort with the fatal error before the
configuration is loaded or any point cache is built; otherwise proceed to
build both. `blocks` abstracts `get_map_block`/`get_category_list`. -/
def overlayInit (gameData : J) (persisted : Option J)
    (blocks : String → Option (String → List RawItem)) :
    Except String (Config × (String → String → List Pt)) :=
  let fmt := detect_data_format gameData
  if fmt == "unknown" then Except.error "Unrecognized data.json format"
  else
    match loadConfig persisted with
    | none => Except.error "config load failed"
    | some cfg => Except.ok (cfg, fun m => build_points_for_map (blocks m))


/-- Fixture: all categories enabled. -/
def enabAll : String → Bool := fun _ => true

/-- Fixture: empty hidden store. -/
def emptyHidden : HiddenSets := fun _ => []

/-- Fixture: a single point at the rectangle's top-left corner. -/
def onePt : Pt := ⟨0, 0, 0, 0, "spawns"⟩

/-- Fixture: a cache with exactly one spawns point. -/
def onePts : String → List Pt := fun t => if t == "spawns" then [onePt] else []

/-- Fixture: a concrete active rectangle. -/
def wRect : Rect := ⟨0, 0, 100, 100⟩

/-- Fixture: a map block with one well-formed towers item. -/
def blk3 : Option (String → List RawItem) :=
  some (fun c => if c == "towers" then [⟨true, some [some 5, some 7]⟩] else [])

/-- Fixture: the point built from the towers item of `blk3`. -/
def pt3 : Pt := ⟨(rotate90cw_norm 5 7).1, (rotate90cw_norm 5 7).2, 5, 7, "towers"⟩

/-- Fixture: a concrete engine state with master off. -/
def stOff : TickState :=
  ⟨false, true, false, "Stillwater Bayou", false, false, false, false, none,
   fun _ => [], fun _ => true, 1, none, fun _ => none, 0, 0, fun _ _ => []⟩

/-- Fixture: the same state with master on. -/
def stOn : TickState := { stOff with master := true }

/-- Fixture: a tick input with the full hide chord held and nothing else. -/
def iChord : TickInput :=
  ⟨false, false, false, false, false, false, false, true, true, true, true, 0, 0⟩

/-- Fixture: a tick input with only Tab held. -/
def iTab : TickInput :=
  ⟨false, false, true, false, false, false, false, false, false, false, false, 0, 0⟩

/- ------------------------------------------------------------------ -/
/- Theorems                                                           -/
/- ------------------------------------------------------------------ -/

/-- C2: for inputs in `[0, 4095]²` the transform computes the rotation,
normalizes, clamps each component independently, and the output lies in
`[0,1]²`; `(0,0)` maps to `(0,1)` and `(4095,4095)` maps to `(1,0)`. -/
theorem c2_coordinate_transform :
    (∀ x y : ℚ, 0 ≤ x → x ≤ 4095 → 0 ≤ y → y ≤ 4095 →
      0 ≤ (rotate90cw_norm x y).1 ∧ (rotate90cw_norm x y).1 ≤ 1 ∧
      0 ≤ (rotate90cw_norm x y).2 ∧ (rotate90cw_norm x y).2 ≤ 1)
    ∧ rotate90cw_norm 0 0 = (0, 1)
    ∧ rotate90cw_norm 4095 4095 = (1, 0) := by
  refine ⟨?_, by decide, by decide⟩
  intro x y _ _ _ _
  simp only [rotate90cw_norm]
  refine ⟨?_, ?_, ?_, ?_⟩ <;> split_ifs <;> linarith

/-- C2 witness: the theorem applied at the concrete input `(0, 0)`. -/
theorem c2_coordinate_transform_witness :
    0 ≤ (rotate90cw_norm 0 0).1 ∧ (rotate90cw_norm 0 0).1 ≤ 1 ∧
    0 ≤ (rotate90cw_norm 0 0).2 ∧ (rotate90cw_norm 0 0).2 ≤ 1 :=
  c2_coordinate_transform.1 0 0 (by decide) (by decide) (by decide) (by decide)

/-- C9: the stored `global_scale` is always within `[0.10, 5.00]` — both
assignment paths (`_scale_changed` and the `__init__` load) clamp, and the
clamp sends 0.02 to 0.10 and 9.0 to 5.00. -/
theorem c9_global_scale_clamped :
    (∀ x : ℚ, 1/10 ≤ clampedScale x ∧ clampedScale x ≤ 5)
    ∧ (∀ (st : TickState) (x : ℚ),
        (scale_changed st x).global_scale = clampedScale x)
    ∧ (∀ p : Option ℚ, 1/10 ≤ initGlobalScale p ∧ initGlobalScale p ≤ 5)
    ∧ clampedScale (2/100) = 1/10 ∧ clampedScale 9 = 5 := by
  have hb : ∀ x : ℚ, 1/10 ≤ clampedScale x ∧ clampedScale x ≤ 5 := by
    intro x
    simp only [clampedScale]
    constructor <;> split_ifs <;> linarith
  exact ⟨hb, fun st x => rfl, fun p => hb _, by decide, by decide⟩

/-- Helper: format detection on any non-list value. -/
theorem detect_of_not_arr (j : J) (hj : ∀ xs, j ≠ J.arr xs) :
    detect_data_format j = "unknown" := by
  cases j <;> first | rfl | exact absurd rfl (hj _)

/-- C10: an empty list, or a non-list value, classifies as "unknown", and
startup then aborts with the fatal format error before any configuration or
point cache is built. -/
theorem c10_unknown_format_fatal :
    detect_data_format (J.arr []) = "unknown"
    ∧ (∀ j : J, (∀ xs, j ≠ J.arr xs) → detect_data_format j = "unknown")
    ∧ (∀ p bl, overlayInit (J.arr []) p bl
        = Except.error "Unrecognized data.json format")
    ∧ (∀ j p bl, (∀ xs, j ≠ J.arr xs) →
        overlayInit j p bl = Except.error "Unrecognized data.json format") := by
  refine ⟨rfl, detect_of_not_arr, fun p bl => rfl, ?_⟩
  intro j p bl hj
  simp only [overlayInit, detect_of_not_arr j hj]
  rfl

/-- C10 witness: the theorem applied at the non-list value `null`. -/
theorem c10_unknown_format_fatal_witness :
    detect_data_format J.null = "unknown"
    ∧ overlayInit J.null none (fun _ => none)
        = Except.error "Unrecognized data.json format" :=
  ⟨c10_unknown_format_fatal.2.1 J.null (fun _ h => J.noConfusion h),
   c10_unknown_format_fatal.2.2.2 J.null none (fun _ => none)
     (fun _ h => J.noConfusion h)⟩

/-- C4: the identity resolver formats `"{x}:{y}"` for source categories and
`"{src}:{x}:{y}"` for the derived category, from coordinates rounded to
nearest integer, and two points whose coordinates round to the same integers
(and share the source category) get the same identity. -/
theorem c4_identity_resolver :
    (∀ pt : Pt, hidden_key "possible_xp" pt
        = pt.src ++ ":" ++ toString (pyRound pt.x) ++ ":" ++ toString (pyRound pt.y))
    ∧ (∀ (tkey : String) (pt : Pt), tkey ≠ "possible_xp" →
        hidden_key tkey pt = toString (pyRound pt.x) ++ ":" ++ toString (pyRound pt.y))
    ∧ (∀ (tkey : String) (pt1 pt2 : Pt), pyRound pt1.x = pyRound pt2.x →
        pyRound pt1.y = pyRound pt2.y → pt1.src = pt2.src →
        hidden_key tkey pt1 = hidden_key tkey pt2) := by
  refine ⟨fun pt => rfl, ?_, ?_⟩
  · intro tkey pt h
    simp only [hidden_key]
    rw [if_neg]
    simp [h]
  · intro tkey pt1 pt2 hx hy hsrc
    simp only [hidden_key, hx, hy, hsrc]

/-- C4 witness: sub-integer noise — `(100, 200)` and `(100.25, 199.75)`
round to the same integers and get the same identity. -/
theorem c4_identity_resolver_witness :
    hidden_key "towers" ⟨0, 0, 100, 200, "towers"⟩
      = hidden_key "towers" ⟨0, 0, 401/4, 799/4, "towers"⟩ :=
  c4_identity_resolver.2.2 "towers" ⟨0, 0, 100, 200, "towers"⟩
    ⟨0, 0, 401/4, 799/4, "towers"⟩ (by decide) (by decide) rfl

/-- C5: hiding a point under `possible_xp` inserts only into that category's
hidden set, so the hidden-test under the source category is unchanged, and
vice versa. -/
theorem c5_cross_category_isolation :
    ∀ (hs : HiddenSets) (pt : Pt) (src : String), src ≠ "possible_xp" →
      is_hidden (hideKey hs "possible_xp" (hidden_key "possible_xp" pt)) src pt
        = is_hidden hs src pt
      ∧ is_hidden (hideKey hs src (hidden_key src pt)) "possible_xp" pt
        = is_hidden hs "possible_xp" pt := by
  intro hs pt src h
  have hb : (src == "possible_xp") = false := by
    simp [h]
  have hb2 : ("possible_xp" == src) = false := by
    simp [Ne.symm h]
  constructor
  · simp only [is_hidden, hideKey, hb, cond_false, Bool.false_eq_true, if_false]
  · simp only [is_hidden, hideKey, hb2, cond_false, Bool.false_eq_true, if_false]

/-- C5 witness: the spec scenario — hiding `"towers:100:200"` under
`possible_xp` leaves the point visible under `towers`, starting from an empty
store. -/
theorem c5_cross_category_isolation_witness :
    is_hidden
        (hideKey emptyHidden "possible_xp"
          (hidden_key "possible_xp" ⟨0, 0, 100, 200, "towers"⟩))
        "towers" ⟨0, 0, 100, 200, "towers"⟩
      = is_hidden emptyHidden "towers" ⟨0, 0, 100, 200, "towers"⟩
    ∧ is_hidden
        (hideKey emptyHidden "towers"
          (hidden_key "towers" ⟨0, 0, 100, 200, "towers"⟩))
        "possible_xp" ⟨0, 0, 100, 200, "towers"⟩
      = is_hidden emptyHidden "possible_xp" ⟨0, 0, 100, 200, "towers"⟩ :=
  c5_cross_category_isolation emptyHidden ⟨0, 0, 100, 200, "towers"⟩ "towers"
    (by decide)

/-- Helper: every point built for a category carries that category as its
source. -/
theorem build_for_category_src (cat : String) (items : List RawItem) :
    ∀ p ∈ build_for_category cat items, p.src = cat := by
  intro p hp
  rw [build_for_category, List.mem_filterMap] at hp
  obtain ⟨a, _, ha⟩ := hp
  unfold parseItem at ha
  split at ha
  · split at ha
    · split at ha
      · split at ha
        · cases ha
          rfl
        · exact absurd ha (by simp)
      · exact absurd ha (by simp)
    · exact absurd ha (by simp)
  · exact absurd ha (by simp)

/-- C3: after every cache build the `possible_xp` list is exactly the ordered
concatenation of the towers, big_towers and armories lists, its length is the
sum of theirs, and points of the three source categories retain their source
category. -/
theorem c3_possible_xp_union (block : Option (String → List RawItem)) :
    build_points_for_map block "possible_xp"
      = build_points_for_map block "towers"
        ++ build_points_for_map block "big_towers"
        ++ build_points_for_map block "armories"
    ∧ (build_points_for_map block "possible_xp").length
      = (build_points_for_map block "towers").length
        + (build_points_for_map block "big_towers").length
        + (build_points_for_map block "armories").length
    ∧ ∀ c, (c = "towers" ∨ c = "big_towers" ∨ c = "armories") →
        ∀ p ∈ build_points_for_map block c, p.src = c := by
  have hcat : ∀ c, (c = "towers" ∨ c = "big_towers" ∨ c = "armories") →
      ∀ p ∈ build_points_for_map block c, p.src = c := by
    intro c hc p hp
    cases block with
    | none => simp [build_points_for_map] at hp
    | some bl =>
      rcases hc with rfl | rfl | rfl <;> exact build_for_category_src _ _ p hp
  cases block with
  | none => exact ⟨rfl, rfl, hcat⟩
  | some bl =>
    refine ⟨rfl, ?_, hcat⟩
    have e0 : build_points_for_map (some bl) "possible_xp"
        = build_for_category "towers" (bl "towers")
          ++ build_for_category "big_towers" (bl "big_towers")
          ++ build_for_category "armories" (bl "armories") := rfl
    have e1 : build_points_for_map (some bl) "towers"
        = build_for_category "towers" (bl "towers") := rfl
    have e2 : build_points_for_map (some bl) "big_towers"
        = build_for_category "big_towers" (bl "big_towers") := rfl
    have e3 : build_points_for_map (some bl) "armories"
        = build_for_category "armories" (bl "armories") := rfl
    rw [e0, e1, e2, e3]
    simp [List.length_append, Nat.add_assoc]

/-- C3 witness: the theorem applied at a concrete one-item block; the built
towers point keeps source category towers and the union equation holds. -/
theorem c3_possible_xp_union_witness :
    pt3.src = "towers"
    ∧ build_points_for_map blk3 "possible_xp"
      = build_points_for_map blk3 "towers"
        ++ build_points_for_map blk3 "big_towers"
        ++ build_points_for_map blk3 "armories" :=
  ⟨(c3_possible_xp_union blk3).2.2 "towers" (Or.inl rfl) pt3 (by decide),
   (c3_possible_xp_union blk3).1⟩

/-- Helper: lookup on a cons cell. -/
theorem jLookup_cons (kv : String × J) (l : List (String × J)) (k : String) :
    jLookup (kv :: l) k = if kv.1 == k then some kv.2 else jLookup l k := by
  cases h : kv.1 == k <;>
    simp [jLookup, List.find?_cons_of_pos, List.find?_cons_of_neg, h]

/-- Helper: key presence as tested by `any` agrees with lookup success. -/
theorem any_key_isSome (l : List (String × J)) (k : String) :
    l.any (fun kv => kv.1 == k) = (jLookup l k).isSome := by
  induction l with
  | nil => rfl
  | cons kv rest ih =>
    rw [List.any_cons, jLookup_cons]
    cases h : kv.1 == k
    · simp [h, ih]
    · simp [h]

/-- Helper: replacing the value of an existing key makes it the lookup
result. -/
theorem jLookup_map_set (l : List (String × J)) (k : String) (v : J)
    (h : l.any (fun kv => kv.1 == k) = true) :
    jLookup (l.map (fun kv => if kv.1 == k then (k, v) else kv)) k = some v := by
  induction l with
  | nil => simp at h
  | cons kv rest ih =>
    rw [List.any_cons] at h
    rw [List.map_cons, jLookup_cons]
    by_cases h1 : (kv.1 == k) = true
    · rw [if_pos h1]
      rw [if_pos (show (((k, v) : String × J).1 == k) = true by simp)]
    · rw [if_neg h1, if_neg h1]
      have h2 : rest.any (fun kv => kv.1 == k) = true := by
        simpa [h1] using h
      exact ih h2

/-- Helper: appending a fresh key makes it the lookup result. -/
theorem jLookup_append_single (l : List (String × J)) (k : String) (v : J)
    (h : l.any (fun kv => kv.1 == k) = false) :
    jLookup (l ++ [(k, v)]) k = some v := by
  induction l with
  | nil => simp [jLookup_cons]
  | cons kv rest ih =>
    rw [List.any_cons, Bool.or_eq_false_iff] at h
    rw [List.cons_append, jLookup_cons, if_neg (by simp [h.1])]
    exact ih h.2

/-- Helper: `dictSet` makes the written key's value the lookup result. -/
theorem jLookup_dictSet_self (l : List (String × J)) (k : String) (v : J) :
    jLookup (dictSet l k v) k = some v := by
  unfold dictSet
  by_cases h : (l.any fun kv => kv.1 == k) = true
  · rw [if_pos h]
    exact jLookup_map_set l k v h
  · rw [if_neg h]
    exact jLookup_append_single l k v (Bool.eq_false_iff.mpr h)

/-- Helper: replacing one key's value leaves other lookups unchanged. -/
theorem jLookup_map_set_other (l : List (String × J)) (k k' : String) (v : J)
    (h : (k == k') = false) :
    jLookup (l.map (fun kv => if kv.1 == k then (k, v) else kv)) k'
      = jLookup l k' := by
  induction l with
  | nil => rfl
  | cons kv rest ih =>
    rw [List.map_cons, jLookup_cons, jLookup_cons]
    by_cases h1 : (kv.1 == k) = true
    · rw [if_pos h1]
      have hk : kv.1 = k := by simpa using h1
      rw [if_neg (show ¬ ((((k, v) : String × J).1 == k') = true) by simp [h]),
        if_neg (show ¬ ((kv.1 == k') = true) by simp [hk]; simpa using h)]
      exact ih
    · rw [if_neg h1]
      by_cases h2 : (kv.1 == k') = true
      · rw [if_pos h2, if_pos h2]
      · rw [if_neg h2, if_neg h2]
        exact ih

/-- Helper: appending a fresh key leaves other lookups unchanged. -/
theorem jLookup_append_single_other (l : List (String × J)) (k k' : String)
    (v : J) (h : (k == k') = false) :
    jLookup (l ++ [(k, v)]) k' = jLookup l k' := by
  induction l with
  | nil => simp [jLookup_cons, h, jLookup]
  | cons kv rest ih =>
    rw [List.cons_append, jLookup_cons, jLookup_cons, ih]

/-- Helper: `dictSet` leaves other keys' lookups unchanged. -/
theorem jLookup_dictSet_other (l : List (String × J)) (k k' : String) (v : J)
    (h : (k == k') = false) :
    jLookup (dictSet l k v) k' = jLookup l k' := by
  unfold dictSet
  by_cases hany : (l.any fun kv => kv.1 == k) = true
  · rw [if_pos hany]
    exact jLookup_map_set_other l k k' v h
  · rw [if_neg hany]
    exact jLookup_append_single_other l k k' v h

/-- Helper: every entry of a `dictSet` result is an old entry or the written
pair. -/
theorem mem_dictSet (l : List (String × J)) (k : String) (v : J)
    (kv' : String × J) (h : kv' ∈ dictSet l k v) : kv' ∈ l ∨ kv' = (k, v) := by
  unfold dictSet at h
  split at h
  · obtain ⟨kv, hm, he⟩ := List.mem_map.mp h
    by_cases h1 : (kv.1 == k) = true
    · rw [if_pos h1] at he
      right
      exact he.symm
    · rw [if_neg h1] at he
      left
      exact he ▸ hm
  · rcases List.mem_append.mp h with h | h
    · left
      exact h
    · right
      simpa using h

/-- Helper: a successful lookup returns one of the stored values. -/
theorem jLookup_mem (l : List (String × J)) (k : String) (v : J)
    (h : jLookup l k = some v) : ∃ kv ∈ l, kv.2 = v := by
  unfold jLookup at h
  cases hf : l.find? (fun kv => kv.1 == k) with
  | none => rw [hf] at h; cases h
  | some kv =>
    rw [hf] at h
    cases h
    exact ⟨kv, List.mem_of_find?_eq_some hf, rfl⟩

/-- Helper: equal lookups give equal TypeSetting checks. -/
theorem typeEntryOk_congr {a b : List (String × J)} (k : String)
    (h : jLookup a k = jLookup b k) : typeEntryOk a k = typeEntryOk b k := by
  unfold typeEntryOk
  rw [h]

/-- Helper: the missing-field filler always yields both an `enabled` and a
`color` field. -/
theorem fillFields_ok (dc : String → J) (k : String) (kvs : List (String × J)) :
    (jLookup (fillFields dc k kvs) "enabled").isSome = true
    ∧ (jLookup (fillFields dc k kvs) "color").isSome = true := by
  simp only [fillFields]
  by_cases h1 : (kvs.any fun kv => kv.1 == "enabled") = true
  · rw [if_pos h1]
    by_cases h2 : (kvs.any fun kv => kv.1 == "color") = true
    · rw [if_pos h2]
      constructor
      · rw [← any_key_isSome]
        exact h1
      · rw [← any_key_isSome]
        exact h2
    · rw [if_neg h2]
      constructor
      · rw [jLookup_dictSet_other _ _ _ _ (by decide), ← any_key_isSome]
        exact h1
      · rw [jLookup_dictSet_self]
        rfl
  · rw [if_neg h1]
    by_cases h2 : ((dictSet kvs "enabled" (J.jbool true)).any
        fun kv => kv.1 == "color") = true
    · rw [if_pos h2]
      constructor
      · rw [jLookup_dictSet_self]
        rfl
      · rw [← any_key_isSome]
        exact h2
    · rw [if_neg h2]
      constructor
      · rw [jLookup_dictSet_other _ _ _ _ (by decide), jLookup_dictSet_self]
        rfl
      · rw [jLookup_dictSet_self]
        rfl

/-- Helper: one `fillType` step always succeeds on an all-object store,
keeps it all-object, and establishes the processed category's entry. -/
theorem fillType_step (dc : String → J) (t0 : List (String × J)) (k0 : String)
    (h0 : ∀ kv ∈ t0, ∃ o, kv.2 = J.obj o) :
    ∃ t1, fillType dc t0 k0 = some t1
      ∧ (∀ kv ∈ t1, ∃ o, kv.2 = J.obj o)
      ∧ typeEntryOk t1 k0 = true := by
  have hacc : ∀ acc1 : List (String × J), (∀ kv ∈ acc1, ∃ o, kv.2 = J.obj o) →
      (jLookup acc1 k0).isSome = true →
      ∃ kvs, jLookup acc1 k0 = some (J.obj kvs) := by
    intro acc1 hobj hs
    cases hl : jLookup acc1 k0 with
    | none => rw [hl] at hs; cases hs
    | some v =>
      obtain ⟨kv, hm, he⟩ := jLookup_mem acc1 k0 v hl
      obtain ⟨o, ho⟩ := hobj kv hm
      exact ⟨o, by rw [← he, ho]⟩
  simp only [fillType]
  by_cases hany : (t0.any fun kv => kv.1 == k0) = true
  · rw [if_pos hany]
    obtain ⟨kvs, hkvs⟩ := hacc t0 h0 (by rw [← any_key_isSome]; exact hany)
    rw [hkvs]
    refine ⟨_, rfl, ?_, ?_⟩
    · intro kv hm
      rcases mem_dictSet _ _ _ _ hm with hm | rfl
      · exact h0 kv hm
      · exact ⟨_, rfl⟩
    · unfold typeEntryOk
      rw [jLookup_dictSet_self]
      have h := fillFields_ok dc k0 kvs
      simp [h.1, h.2]
  · rw [if_neg hany]
    have hobj1 : ∀ kv ∈ dictSet t0 k0
        (J.obj [("enabled", J.jbool true), ("color", dc k0)]),
        ∃ o, kv.2 = J.obj o := by
      intro kv hm
      rcases mem_dictSet _ _ _ _ hm with hm | rfl
      · exact h0 kv hm
      · exact ⟨_, rfl⟩
    obtain ⟨kvs, hkvs⟩ := hacc _ hobj1 (by rw [jLookup_dictSet_self]; rfl)
    rw [hkvs]
    refine ⟨_, rfl, ?_, ?_⟩
    · intro kv hm
      rcases mem_dictSet _ _ _ _ hm with hm | rfl
      · exact hobj1 kv hm
      · exact ⟨_, rfl⟩
    · unfold typeEntryOk
      rw [jLookup_dictSet_self]
      have h := fillFields_ok dc k0 kvs
      simp [h.1, h.2]

/-- Helper: a `fillType` step for one category leaves other categories'
established entries intact. -/
theorem fillType_mono (dc : String → J) (t0 : List (String × J)) (k0 : String)
    (t1 : List (String × J)) (ht1 : fillType dc t0 k0 = some t1) (k : String)
    (hne : (k0 == k) = false) (hk : typeEntryOk t0 k = true) :
    typeEntryOk t1 k = true := by
  have hl : jLookup t1 k = jLookup t0 k := by
    simp only [fillType] at ht1
    by_cases hany : (t0.any fun kv => kv.1 == k0) = true
    · rw [if_pos hany] at ht1
      split at ht1
      · cases ht1
        rw [jLookup_dictSet_other _ _ _ _ hne]
      · cases ht1
    · rw [if_neg hany] at ht1
      split at ht1
      · cases ht1
        rw [jLookup_dictSet_other _ _ _ _ hne, jLookup_dictSet_other _ _ _ _ hne]
      · cases ht1
  rw [typeEntryOk_congr k hl]
  exact hk

/-- Helper: folding `fillType` over a category list succeeds on an
all-object store and establishes every listed category's entry. -/
theorem foldlM_fillType_ok (dc : String → J) (L : List String) :
    ∀ t0 : List (String × J), (∀ kv ∈ t0, ∃ o, kv.2 = J.obj o) →
      ∃ ts, List.foldlM (fillType dc) t0 L = some ts
        ∧ (∀ kv ∈ ts, ∃ o, kv.2 = J.obj o)
        ∧ ∀ k, (k ∈ L ∨ typeEntryOk t0 k = true) → typeEntryOk ts k = true := by
  induction L with
  | nil =>
    intro t0 h0
    exact ⟨t0, rfl, h0,
      fun k hk => hk.elim (fun h => absurd h (List.not_mem_nil k)) id⟩
  | cons k0 L ih =>
    intro t0 h0
    obtain ⟨t1, ht1, h1obj, h1self⟩ := fillType_step dc t0 k0 h0
    obtain ⟨ts, hts, hobj, hall⟩ := ih t1 h1obj
    refine ⟨ts, ?_, hobj, ?_⟩
    · rw [List.foldlM_cons, ht1]
      exact hts
    · intro k hk
      rcases hk with hk | hk
      · rcases List.mem_cons.mp hk with rfl | hk
        · exact hall k (Or.inr h1self)
        · exact hall k (Or.inl hk)
      · by_cases hkk : (k0 == k) = true
        · have : k0 = k := by simpa using hkk
          subst this
          exact hall k0 (Or.inr h1self)
        · exact hall k (Or.inr (fillType_mono dc t0 k0 t1 ht1 k
            (by simpa using hkk) hk))

/-- C8: merging an empty or malformed persisted payload (unreadable file,
non-dict JSON, or an object without the two sections) over the defaults
yields exactly the default structure, with all 4 map profiles carrying a dict
rect_ratio and all 11 categories ending up with a TypeSetting entry and a
hidden-list entry. -/
theorem c8_defaults_on_malformed (d : Option J) (dc : String → J)
    (hmal : d = none
        ∨ (∃ j, d = some j ∧ ∀ kvs, j ≠ J.obj kvs)
        ∨ (∃ kvs, d = some (J.obj kvs) ∧ jLookup kvs "profiles" = none
            ∧ jLookup kvs "settings" = none)) :
    loadConfig d = some ⟨defaultProfiles, defaultSettings⟩
    ∧ MAPS.all (profileHasRect defaultProfiles) = true
    ∧ (∃ ts, initTypes dc defaultSettings = some ts
        ∧ typeOrder.all (typeEntryOk ts) = true)
    ∧ typeOrder.all (hiddenEntryOk (initHidden defaultSettings)) = true := by
  refine ⟨?_, rfl, ?_, rfl⟩
  · rcases hmal with rfl | ⟨j, rfl, hj⟩ | ⟨kvs, rfl, hp, hs⟩
    · rfl
    · cases j <;> first | rfl | exact absurd rfl (hj _)
    · simp only [loadConfig, hp, hs]
      rfl
  · obtain ⟨ts, hts, _, hall⟩ := foldlM_fillType_ok dc typeOrder []
      (fun kv h => absurd h (List.not_mem_nil kv))
    refine ⟨ts, hts, List.all_eq_true.mpr (fun k hk => hall k (Or.inl hk))⟩

/-- C8 witness: the theorem applied to the unreadable-file payload. -/
theorem c8_defaults_on_malformed_witness :
    loadConfig none = some ⟨defaultProfiles, defaultSettings⟩
    ∧ MAPS.all (profileHasRect defaultProfiles) = true
    ∧ (∃ ts, initTypes (fun _ => J.null) defaultSettings = some ts
        ∧ typeOrder.all (typeEntryOk ts) = true)
    ∧ typeOrder.all (hiddenEntryOk (initHidden defaultSettings)) = true :=
  c8_defaults_on_malformed none (fun _ => J.null) (Or.inl rfl)

/-- Helper: the best-tracking fold never increases the best measure and ends
at or below every element's measure. -/
theorem foldBest_fst_le {α : Type} (f : α → ℚ) (l : List α) (acc : ℚ × Option α) :
    (foldBest f l acc).1 ≤ acc.1 ∧ ∀ c ∈ l, (foldBest f l acc).1 ≤ f c := by
  induction l generalizing acc with
  | nil => exact ⟨le_refl _, by simp⟩
  | cons c cs ih =>
    by_cases h : f c ≤ acc.1
    · have hrec := ih (f c, some c)
      rw [foldBest, if_pos h]
      refine ⟨hrec.1.trans h, ?_⟩
      intro x hx
      rcases List.mem_cons.mp hx with rfl | hx
      · exact hrec.1
      · exact hrec.2 x hx
    · have hrec := ih acc
      rw [foldBest, if_neg h]
      refine ⟨hrec.1, ?_⟩
      intro x hx
      rcases List.mem_cons.mp hx with rfl | hx
      · exact hrec.1.trans (le_of_not_le h)
      · exact hrec.2 x hx

/-- Helper: the best-tracking fold either never updates (every element
strictly above the incoming best) or returns the last element attaining the
final best measure. -/
theorem foldBest_cases {α : Type} (f : α → ℚ) (l : List α) (acc : ℚ × Option α) :
    (foldBest f l acc = acc ∧ ∀ c ∈ l, acc.1 < f c)
    ∨ (∃ l1 c l2, l = l1 ++ c :: l2 ∧ (foldBest f l acc).2 = some c
        ∧ (foldBest f l acc).1 = f c ∧ f c ≤ acc.1 ∧ ∀ x ∈ l2, f c < f x) := by
  induction l generalizing acc with
  | nil => exact Or.inl ⟨rfl, by simp⟩
  | cons c cs ih =>
    by_cases h : f c ≤ acc.1
    · right
      have heq : foldBest f (c :: cs) acc = foldBest f cs (f c, some c) := by
        rw [foldBest, if_pos h]
      rcases ih (f c, some c) with ⟨hfix, hall⟩ | ⟨l1, c1, l2, hsplit, h2, h1, hle, hgt⟩
      · exact ⟨[], c, cs, rfl, by rw [heq, hfix], by rw [heq, hfix], h,
          fun x hx => hall x hx⟩
      · refine ⟨c :: l1, c1, l2, by rw [hsplit, List.cons_append], ?_, ?_, ?_, hgt⟩
        · rw [heq]
          exact h2
        · rw [heq]
          exact h1
        · exact hle.trans h
    · have heq : foldBest f (c :: cs) acc = foldBest f cs acc := by
        rw [foldBest, if_neg h]
      rcases ih acc with ⟨hfix, hall⟩ | ⟨l1, c1, l2, hsplit, h2, h1, hle, hgt⟩
      · left
        refine ⟨by rw [heq, hfix], ?_⟩
        intro x hx
        rcases List.mem_cons.mp hx with rfl | hx
        · exact lt_of_not_le h
        · exact hall x hx
      · right
        exact ⟨c :: l1, c1, l2, by rw [hsplit, List.cons_append],
          by rw [heq]; exact h2, by rw [heq]; exact h1, hle, hgt⟩

/-- Helper: the best-tracking fold over an appended list runs the two parts
in sequence. -/
theorem foldBest_append {α : Type} (f : α → ℚ) (l1 l2 : List α)
    (acc : ℚ × Option α) :
    foldBest f (l1 ++ l2) acc = foldBest f l2 (foldBest f l1 acc) := by
  induction l1 generalizing acc with
  | nil => rfl
  | cons c cs ih =>
    rw [List.cons_append, foldBest, foldBest]
    split <;> apply ih

/-- Helper: the inner category loop is the best-tracking fold over that
category's non-hidden enumerated points. -/
theorem innerFold_eq_foldBest (mapName tkey : String) (hs : HiddenSets)
    (r : Rect) (mx my : ℚ) (li : List (ℕ × Pt)) (acc : ℚ × Option Hover) :
    innerFold mapName tkey hs r mx my li acc
      = foldBest (hoverD2 r mx my)
          ((li.filter (fun ip => !is_hidden hs tkey ip.2)).map
            (fun ip => ⟨mapName, tkey, ip.1, ip.2⟩)) acc := by
  induction li generalizing acc with
  | nil => rfl
  | cons ip rest ih =>
    by_cases hh : is_hidden hs tkey ip.2 = true
    · rw [innerFold, if_pos hh, List.filter_cons_of_neg (by simp [hh])]
      exact ih acc
    · rw [innerFold, if_neg hh,
        List.filter_cons_of_pos (by simp [Bool.eq_false_iff.mpr hh]),
        List.map_cons, foldBest]
      by_cases hd : ptD2 r mx my ip.2 ≤ acc.1
      · rw [if_pos hd,
          if_pos (show hoverD2 r mx my ⟨mapName, tkey, ip.1, ip.2⟩ ≤ acc.1 from hd)]
        exact ih _
      · rw [if_neg hd,
          if_neg (show ¬ hoverD2 r mx my ⟨mapName, tkey, ip.1, ip.2⟩ ≤ acc.1 from hd)]
        exact ih acc

/-- Helper: the whole hit-test loop is the best-tracking fold over the
candidate list. -/
theorem hitTestFold_eq_foldBest (mapName : String) (order : List String)
    (enabled : String → Bool) (hs : HiddenSets) (pts : String → List Pt)
    (r : Rect) (mx my : ℚ) (acc : ℚ × Option Hover) :
    hitTestFold mapName order enabled hs pts r mx my acc
      = foldBest (hoverD2 r mx my) (candidates mapName order enabled hs pts) acc := by
  induction order generalizing acc with
  | nil => rfl
  | cons t rest ih =>
    rw [hitTestFold, List.foldl_cons]
    rw [show candidates mapName (t :: rest) enabled hs pts
        = (if enabled t then catCandidates mapName t hs (pts t) else [])
          ++ candidates mapName rest enabled hs pts from rfl]
    rw [foldBest_append]
    by_cases he : enabled t = true
    · rw [if_pos he, if_pos he, innerFold_eq_foldBest]
      exact ih _
    · rw [if_neg he, if_neg he]
      exact ih acc

/-- Helper: every candidate comes from an enabled category, is not hidden,
and carries the current map name. -/
theorem mem_candidates {mapName : String} {order : List String}
    {enabled : String → Bool} {hs : HiddenSets} {pts : String → List Pt}
    {c : Hover} (hc : c ∈ candidates mapName order enabled hs pts) :
    enabled c.tkey = true ∧ is_hidden hs c.tkey c.pt = false ∧ c.map = mapName := by
  induction order with
  | nil => simp [candidates] at hc
  | cons t rest ih =>
    rw [show candidates mapName (t :: rest) enabled hs pts
        = (if enabled t then catCandidates mapName t hs (pts t) else [])
          ++ candidates mapName rest enabled hs pts from rfl] at hc
    rcases List.mem_append.mp hc with hc | hc
    · by_cases he : enabled t = true
      · rw [if_pos he] at hc
        obtain ⟨ip, hip, rfl⟩ := List.mem_map.mp hc
        have hfil := (List.mem_filter.mp hip).2
        exact ⟨he, by simpa using hfil, rfl⟩
      · rw [if_neg he] at hc
        simp at hc
    · exact ih hc

/-- C1: with an active rectangle, the hover hit-test returns none exactly
when every candidate (a non-hidden point of an enabled category, in
category-then-index order) has squared pointer distance above the squared
10-pixel radius; otherwise it returns a candidate at or below the radius
whose squared distance is minimal, the last such candidate in iteration
order, so later exact ties displace earlier ones; disabled categories and
hidden points are never candidates. -/
theorem c1_hover_hit_test (mapName : String) (enabled : String → Bool)
    (hs : HiddenSets) (pts : String → List Pt) (r : Rect) (mx my : ℚ) :
    (hit_test mapName enabled hs pts r mx my = none
      ↔ ∀ c ∈ candidates mapName typeOrder enabled hs pts,
          hoverRadius * hoverRadius < hoverD2 r mx my c)
    ∧ (∀ b, hit_test mapName enabled hs pts r mx my = some b →
        b ∈ candidates mapName typeOrder enabled hs pts
        ∧ hoverD2 r mx my b ≤ hoverRadius * hoverRadius
        ∧ (∀ c ∈ candidates mapName typeOrder enabled hs pts,
            hoverD2 r mx my b ≤ hoverD2 r mx my c)
        ∧ ∃ l1 l2, candidates mapName typeOrder enabled hs pts = l1 ++ b :: l2
            ∧ ∀ c ∈ l2, hoverD2 r mx my b < hoverD2 r mx my c)
    ∧ (∀ c ∈ candidates mapName typeOrder enabled hs pts,
        enabled c.tkey = true ∧ is_hidden hs c.tkey c.pt = false
        ∧ c.map = mapName) := by
  have hrw : hit_test mapName enabled hs pts r mx my
      = (foldBest (hoverD2 r mx my) (candidates mapName typeOrder enabled hs pts)
          (hoverRadius * hoverRadius, none)).2 := by
    rw [hit_test, hitTestFold_eq_foldBest]
  have hmin := foldBest_fst_le (hoverD2 r mx my)
    (candidates mapName typeOrder enabled hs pts) (hoverRadius * hoverRadius, none)
  refine ⟨?_, ?_, fun c hc => mem_candidates hc⟩
  · rcases foldBest_cases (hoverD2 r mx my)
        (candidates mapName typeOrder enabled hs pts)
        (hoverRadius * hoverRadius, none) with ⟨hfix, hall⟩ |
        ⟨l1, c, l2, hsplit, h2, h1, hle, hgt⟩
    · rw [hrw, hfix]
      exact ⟨fun _ => hall, fun _ => rfl⟩
    · rw [hrw, h2]
      constructor
      · intro h
        cases h
      · intro hall
        have hc : c ∈ candidates mapName typeOrder enabled hs pts := by
          rw [hsplit]
          exact List.mem_append.mpr (Or.inr (List.mem_cons_self c l2))
        exact absurd hle (not_le.mpr (hall c hc))
  · intro b hb
    rcases foldBest_cases (hoverD2 r mx my)
        (candidates mapName typeOrder enabled hs pts)
        (hoverRadius * hoverRadius, none) with ⟨hfix, hall⟩ |
        ⟨l1, c, l2, hsplit, h2, h1, hle, hgt⟩
    · rw [hrw, hfix] at hb
      cases hb
    · rw [hrw, h2] at hb
      cases hb
      have hc : b ∈ candidates mapName typeOrder enabled hs pts := by
        rw [hsplit]
        exact List.mem_append.mpr (Or.inr (List.mem_cons_self b l2))
      refine ⟨hc, hle, ?_, l1, l2, hsplit, hgt⟩
      intro x hx
      have := hmin.2 x hx
      rw [h1] at this
      exact this

/-- C1 witness: the theorem applied to a one-point cache whose point sits at
the pointer; the hit-test selects it. -/
theorem c1_hover_hit_test_witness :
    (⟨"m", "spawns", 0, onePt⟩ : Hover)
        ∈ candidates "m" typeOrder enabAll emptyHidden onePts
    ∧ hoverD2 wRect 0 0 ⟨"m", "spawns", 0, onePt⟩ ≤ hoverRadius * hoverRadius
    ∧ (∀ c ∈ candidates "m" typeOrder enabAll emptyHidden onePts,
        hoverD2 wRect 0 0 ⟨"m", "spawns", 0, onePt⟩ ≤ hoverD2 wRect 0 0 c)
    ∧ ∃ l1 l2, candidates "m" typeOrder enabAll emptyHidden onePts
        = l1 ++ (⟨"m", "spawns", 0, onePt⟩ : Hover) :: l2
        ∧ ∀ c ∈ l2, hoverD2 wRect 0 0 ⟨"m", "spawns", 0, onePt⟩ < hoverD2 wRect 0 0 c :=
  (c1_hover_hit_test "m" enabAll emptyHidden onePts wRect 0 0).2.1
    ⟨"m", "spawns", 0, onePt⟩ (by decide)

/-- Helper: field effects of the backtick block — `pbt` takes the new
sample, the master flag becomes `masterAfter`, the other edge samples are
untouched. -/
theorem tickBt_fields (st : TickState) (i : TickInput) :
    (tickBt st i).pbt = i.bt ∧ (tickBt st i).pH = st.pH
    ∧ (tickBt st i).pT = st.pT ∧ (tickBt st i).pHide = st.pHide
    ∧ (tickBt st i).master = masterAfter st i := by
  simp only [tickBt, masterAfter]
  split_ifs <;> simp

/-- Helper: field effects of the H block. -/
theorem tickH_fields (st : TickState) (i : TickInput) :
    (tickH st i).pbt = st.pbt ∧ (tickH st i).pH = i.h
    ∧ (tickH st i).pT = st.pT ∧ (tickH st i).pHide = st.pHide
    ∧ (tickH st i).master = st.master := by
  unfold tickH
  split <;> simp

/-- Helper: field effects of the Tab block. -/
theorem tickTab_fields (st : TickState) (i : TickInput) :
    (tickTab st i).pbt = st.pbt ∧ (tickTab st i).pH = st.pH
    ∧ (tickTab st i).pT = i.tab ∧ (tickTab st i).pHide = st.pHide
    ∧ (tickTab st i).master = st.master := by
  unfold tickTab
  split <;> simp

/-- Helper: `_apply_rect` only changes the rectangle. -/
theorem applyRect_fields (st : TickState) :
    (applyRect st).pbt = st.pbt ∧ (applyRect st).pH = st.pH
    ∧ (applyRect st).pT = st.pT ∧ (applyRect st).pHide = st.pHide
    ∧ (applyRect st).master = st.master := by
  unfold applyRect
  split <;> simp

/-- Helper: `switch` leaves the edge samples and master flag unchanged. -/
theorem switch_fields (st : TickState) (name : String) :
    (switch st name).pbt = st.pbt ∧ (switch st name).pH = st.pH
    ∧ (switch st name).pT = st.pT ∧ (switch st name).pHide = st.pHide
    ∧ (switch st name).master = st.master := by
  unfold switch
  split
  · exact applyRect_fields _
  · exact ⟨rfl, rfl, rfl, rfl, rfl⟩

/-- Helper: the map-switch block leaves the edge samples and master flag
unchanged. -/
theorem tickMaps_fields (st : TickState) (i : TickInput) :
    (tickMaps st i).pbt = st.pbt ∧ (tickMaps st i).pH = st.pH
    ∧ (tickMaps st i).pT = st.pT ∧ (tickMaps st i).pHide = st.pHide
    ∧ (tickMaps st i).master = st.master := by
  unfold tickMaps
  split
  · split
    · exact switch_fields _ _
    · split
      · exact switch_fields _ _
      · split
        · exact switch_fields _ _
        · split
          · exact switch_fields _ _
          · exact ⟨rfl, rfl, rfl, rfl, rfl⟩
  · exact ⟨rfl, rfl, rfl, rfl, rfl⟩

/-- Helper: the hover block only changes the hover result. -/
theorem tickHover_fields (st : TickState) (i : TickInput) :
    (tickHover st i).pbt = st.pbt ∧ (tickHover st i).pH = st.pH
    ∧ (tickHover st i).pT = st.pT ∧ (tickHover st i).pHide = st.pHide
    ∧ (tickHover st i).master = st.master := by
  unfold tickHover
  split <;> simp

/-- Helper: `_hide_hovered` leaves the edge samples and master flag
unchanged. -/
theorem hide_hovered_fields (st : TickState) :
    (hide_hovered st).pbt = st.pbt ∧ (hide_hovered st).pH = st.pH
    ∧ (hide_hovered st).pT = st.pT ∧ (hide_hovered st).pHide = st.pHide
    ∧ (hide_hovered st).master = st.master := by
  unfold hide_hovered
  split <;> simp

/-- Helper: field effects of the chord block — it reports a fire exactly on
a rising edge of the whole chord and stores the chord sample. -/
theorem tickChord_fields (st : TickState) (i : TickInput) :
    (tickChord st i).1.pbt = st.pbt ∧ (tickChord st i).1.pH = st.pH
    ∧ (tickChord st i).1.pT = st.pT ∧ (tickChord st i).1.pHide = chord i
    ∧ (tickChord st i).2 = (chord i && !st.pHide) := by
  simp only [tickChord]
  have h := hide_hovered_fields st
  split_ifs <;> simp [h.1, h.2.1, h.2.2.1]

/-- Helper: the state reached after the backtick and H blocks. -/
theorem tick_s2_fields (st : TickState) (i : TickInput) :
    (tickH (tickBt st i) i).pbt = i.bt ∧ (tickH (tickBt st i) i).pH = i.h
    ∧ (tickH (tickBt st i) i).pT = st.pT
    ∧ (tickH (tickBt st i) i).pHide = st.pHide
    ∧ (tickH (tickBt st i) i).master = masterAfter st i := by
  have hb := tickBt_fields st i
  have hh := tickH_fields (tickBt st i) i
  exact ⟨by rw [hh.1, hb.1], hh.2.1,
    by rw [hh.2.2.1, hb.2.2.1], by rw [hh.2.2.2.1, hb.2.2.2.1],
    by rw [hh.2.2.2.2, hb.2.2.2.2]⟩

/-- Helper: the state the chord block sees inside a full tick. -/
theorem tick_s5_pHide (st : TickState) (i : TickInput) :
    (tickHover (tickMaps (tickTab (tickH (tickBt st i) i) i) i) i).pHide
      = st.pHide := by
  rw [(tickHover_fields _ _).2.2.2.1, (tickMaps_fields _ _).2.2.2.1,
    (tickTab_fields _ _).2.2.2.1, (tick_s2_fields st i).2.2.2.1]

/-- Helper: whether the chorded hide action fires on a tick: master must be
on after the backtick block, the chord fully held, and the previous chord
sample off. -/
theorem tick_fired (st : TickState) (i : TickInput) :
    (tick st i).2 = (masterAfter st i && (chord i && !st.pHide)) := by
  unfold tick
  by_cases hm : (tickH (tickBt st i) i).master = true
  · rw [if_neg (by simp [hm])]
    rw [(tickChord_fields _ _).2.2.2.2, tick_s5_pHide]
    rw [(tick_s2_fields st i).2.2.2.2] at hm
    rw [hm, Bool.true_and]
  · rw [if_pos (by simp [Bool.eq_false_iff.mpr hm])]
    rw [(tick_s2_fields st i).2.2.2.2] at hm
    rw [Bool.eq_false_iff.mpr hm, Bool.false_and]

/-- Helper: the chord's stored previous sample after a tick. -/
theorem tick_pHide (st : TickState) (i : TickInput) :
    (tick st i).1.pHide = (if masterAfter st i then chord i else st.pHide) := by
  unfold tick
  by_cases hm : (tickH (tickBt st i) i).master = true
  · rw [if_neg (by simp [hm])]
    rw [(tickChord_fields _ _).2.2.2.1]
    rw [(tick_s2_fields st i).2.2.2.2] at hm
    rw [hm, if_pos rfl]
  · rw [if_pos (by simp [Bool.eq_false_iff.mpr hm])]
    rw [(tick_s2_fields st i).2.2.2.2] at hm
    rw [Bool.eq_false_iff.mpr hm, if_neg (by simp)]
    exact (tick_s2_fields st i).2.2.2.1

/-- Helper: the Tab binding's stored previous sample after a tick. -/
theorem tick_pT (st : TickState) (i : TickInput) :
    (tick st i).1.pT = (if masterAfter st i then i.tab else st.pT) := by
  unfold tick
  by_cases hm : (tickH (tickBt st i) i).master = true
  · rw [if_neg (by simp [hm])]
    rw [(tickChord_fields _ _).2.2.1, (tickHover_fields _ _).2.2.1,
      (tickMaps_fields _ _).2.2.1, (tickTab_fields _ _).2.2.1]
    rw [(tick_s2_fields st i).2.2.2.2] at hm
    rw [hm, if_pos rfl]
  · rw [if_pos (by simp [Bool.eq_false_iff.mpr hm])]
    rw [(tick_s2_fields st i).2.2.2.2] at hm
    rw [Bool.eq_false_iff.mpr hm, if_neg (by simp)]
    exact (tick_s2_fields st i).2.2.1

/-- Helper: the backtick binding's stored previous sample after a tick. -/
theorem tick_pbt (st : TickState) (i : TickInput) :
    (tick st i).1.pbt = i.bt := by
  simp only [tick]
  split
  · exact (tick_s2_fields st i).1
  · rw [(tickChord_fields _ _).1, (tickHover_fields _ _).1,
      (tickMaps_fields _ _).1, (tickTab_fields _ _).1]
    exact (tick_s2_fields st i).1

/-- Helper: the H binding's stored previous sample after a tick. -/
theorem tick_pH (st : TickState) (i : TickInput) :
    (tick st i).1.pH = i.h := by
  simp only [tick]
  split
  · exact (tick_s2_fields st i).2.1
  · rw [(tickChord_fields _ _).2.1, (tickHover_fields _ _).2.1,
      (tickMaps_fields _ _).2.1, (tickTab_fields _ _).2.1]
    exact (tick_s2_fields st i).2.1

/-- Helper: once the chord's stored sample is on, a run of chord-held ticks
never fires the hide action again, whatever the master flag does. -/
theorem countFires_zero (l : List TickInput) :
    ∀ st : TickState, st.pHide = true → (∀ j ∈ l, chord j = true) →
      countFires st l = 0 := by
  induction l with
  | nil => intro st _ _; rfl
  | cons j rest ih =>
    intro st hp hall
    have hcj := hall j (List.mem_cons_self j rest)
    have hf : (tick st j).2 = false := by
      rw [tick_fired, hcj, hp]
      simp
    have hph : (tick st j).1.pHide = true := by
      rw [tick_pHide]
      split
      · exact hcj
      · exact hp
    rw [countFires, hf, if_neg (by simp), Nat.zero_add]
    exact ih (tick st j).1 hph (fun x hx => hall x (List.mem_cons_of_mem j hx))

/-- C7 (amended): `pbt` and `pH` are updated to the current samples on every
tick unconditionally; `pT` and the chord sample `pHide` are updated exactly
on the ticks where master is on after the backtick block — when master is
off there, the early return leaves them at their previous values. -/
theorem c7_prev_samples (st : TickState) (i : TickInput) :
    (tick st i).1.pbt = i.bt
    ∧ (tick st i).1.pH = i.h
    ∧ (tick st i).1.pT = (if masterAfter st i then i.tab else st.pT)
    ∧ (tick st i).1.pHide = (if masterAfter st i then chord i else st.pHide) :=
  ⟨tick_pbt st i, tick_pH st i, tick_pT st i, tick_pHide st i⟩

/-- C7 counterexample: with master off, a tick with Tab newly held does not
store the current Tab sample — the claim's "updated unconditionally
regardless of the master state" fails. -/
theorem c7_prev_samples_counterexample :
    (tick stOff iTab).1.pT ≠ iTab.tab := by decide

/-- C6 (amended): when master is on (after the backtick block) on the tick
where the chord transitions from not-held to held, the hide action fires on
that tick, and it does not fire again on any following tick while the chord
stays fully held. -/
theorem c6_chord_fires_once (st : TickState) (i : TickInput)
    (rest : List TickInput) (hm : masterAfter st i = true)
    (hc : chord i = true) (hp : st.pHide = false)
    (hrest : ∀ j ∈ rest, chord j = true) :
    (tick st i).2 = true ∧ countFires (tick st i).1 rest = 0 := by
  constructor
  · rw [tick_fired, hm, hc, hp]
    rfl
  · have h1 : (tick st i).1.pHide = true := by
      rw [tick_pHide, hm, if_pos rfl]
      exact hc
    exact countFires_zero rest (tick st i).1 h1 hrest

/-- C6 witness: the amended theorem applied to a concrete master-on state
and a two-tick chord-held run. -/
theorem c6_chord_fires_once_witness :
    (tick stOn iChord).2 = true ∧ countFires (tick stOn iChord).1 [iChord] = 0 :=
  c6_chord_fires_once stOn iChord [iChord] rfl rfl rfl
    (by intro j hj; rcases List.mem_singleton.mp hj with rfl; rfl)

/-- C6 counterexample: with master off throughout, the chord transitions
from not-held (stored sample off) to fully held and stays held for two
ticks, yet the hide action fires zero times, not exactly once. -/
theorem c6_chord_fires_once_counterexample :
    chord iChord = true ∧ stOff.pHide = false
    ∧ countFires stOff [iChord, iChord] = 0 := by decide
